import Mathlib

set_option autoImplicit false

/-!
Shallow embedding of `src/hashtag_importer.rs` (SlyEcho/hashtag-importer).

The sync core consists of `run` (the scheduler loop), `import_hashtag`
(the per-hashtag pass) and `import_status` (the per-item import step),
driven by four `governor` rate limiters:

  - `lim_queries`  : keyed,  1 permit per minute (per server),
  - `lim_upstreams`: keyed,  5 permits per hour (per remote host),
  - `lim_import`   : direct, 20 permits per hour,
  - `lim_loop`     : direct, 4 permits per hour.

Network calls (`hashtags`, `import`), URL parsing (`reqwest::Url`) and the
host extraction are external collaborators; they are supplied by an
environment (`Env`) of oracles.  Time is a `Nat` clock (seconds); the only
clock advances in the model are the limiter waits and the fixed inter-pass
sleep, mirroring the fact that all suspension in the source is synchronous
sleeping computed from limiter wait durations.
-/

/-- Modelled from the spec: the rate limiter implementation (the `governor`
crate) is not part of this repository; §4.1 defines the TokenBucketLimiter
contract as a quota of "N permits replenishing over period P".  A bucket
configuration: `n` permits per period `p` (seconds). -/
structure BucketCfg where
  n : Nat
  p : Nat

/-- Modelled from the spec: the state of one token bucket.  `avail` is the
available quota in micro-permits (one permit costs `p` micro-permits, so the
bucket replenishes `n` micro-permits per second and caps at `n * p`);
`last` is the time of the last state update.  `used` is a ghost counter of
permits granted so far, used only to state frame properties about permit
consumption; it does not influence behaviour. -/
structure BucketState where
  avail : Nat
  last : Nat
  used : Nat

/-- Quota available at time `t`: replenish `n` micro-permits per second since
`last`, capped at full capacity `n * p`. -/
def refill (cfg : BucketCfg) (s : BucketState) (t : Nat) : Nat :=
  min (cfg.n * cfg.p) (s.avail + cfg.n * (t - s.last))

/-- Consume one permit at time `t` (caller has checked availability). -/
def acquireAt (cfg : BucketCfg) (s : BucketState) (t : Nat) : BucketState :=
  ⟨refill cfg s t - cfg.p, t, s.used + 1⟩

/-- Exact duration until the next permit becomes available, reported to a
denied caller (ceiling division, missing micro-permits over refill rate). -/
def waitDur (cfg : BucketCfg) (s : BucketState) (t : Nat) : Nat :=
  (cfg.p - refill cfg s t + cfg.n - 1) / cfg.n

/-- Modelled from the spec: non-blocking `try_acquire` (`governor`'s
`check`/`check_key`).  Granted: consume a permit.  Denied: the bucket state
is untouched and the exact wait duration is reported. -/
def tryAcquire (cfg : BucketCfg) (s : BucketState) (t : Nat) :
    Option Nat × BucketState :=
  if cfg.p ≤ refill cfg s t then (none, acquireAt cfg s t)
  else (some (waitDur cfg s t), s)

/-- `wait_until` / `block_until_acquire`: sleep for the reported wait
duration, then acquire.  In the deterministic clock model one sleep of the
exact reported duration always suffices (lemma `waitDur_grants`). -/
def waitUntilAcquire (cfg : BucketCfg) (s : BucketState) (t : Nat) :
    BucketState × Nat :=
  match tryAcquire cfg s t with
  | (none, s1) => (s1, t)
  | (some w, _) => (acquireAt cfg s (t + w), t + w)

/-- A bucket created lazily on first use of a key: full capacity. -/
def freshBucket (cfg : BucketCfg) : BucketState :=
  ⟨cfg.n * cfg.p, 0, 0⟩

/-- A keyed limiter: one independent bucket per key, as an association list
with at most one entry per key. -/
abbrev KeyedLim := List (String × BucketState)

/-- Bucket for key `k`, created (full) on first use. -/
def getBucket (cfg : BucketCfg) (l : KeyedLim) (k : String) : BucketState :=
  match l.lookup k with
  | some b => b
  | none => freshBucket cfg

/-- Store the bucket for key `k`, keeping one entry per key. -/
def setBucket (l : KeyedLim) (k : String) (b : BucketState) : KeyedLim :=
  (k, b) :: l.filter (fun kv => kv.1 ≠ k)

/-- Non-blocking keyed acquisition (`check_key`).  Denied: the keyed state
is wholly untouched (no bucket is created or modified). -/
def tryAcquireKey (cfg : BucketCfg) (l : KeyedLim) (k : String) (t : Nat) :
    Option Nat × KeyedLim :=
  match tryAcquire cfg (getBucket cfg l k) t with
  | (none, b1) => (none, setBucket l k b1)
  | (some w, _) => (some w, l)

/-- `wait_until_key`: blocking keyed acquisition. -/
def waitUntilKeyAcquire (cfg : BucketCfg) (l : KeyedLim) (k : String)
    (t : Nat) : KeyedLim × Nat :=
  let r := waitUntilAcquire cfg (getBucket cfg l k) t
  (setBucket l k r.1, r.2)

/-- Modelled from the spec: compaction of a keyed limiter ("Periodic
compaction (`compact()`) removes buckets that have fully recovered to full
capacity"); the call site is `lim_upstreams.shrink_to_fit()` in `run`, whose
implementation lives in the `governor` crate, outside this repository. -/
def compact (cfg : BucketCfg) (l : KeyedLim) (t : Nat) : KeyedLim :=
  l.filter (fun kv => refill cfg kv.2 t ≠ cfg.n * cfg.p)

/-- Run one bucket over a list of attempt times, recording for each attempt
whether the non-blocking acquisition was granted. -/
def runBucket (cfg : BucketCfg) (s : BucketState) :
    List Nat → BucketState × List Bool
  | [] => (s, [])
  | t :: ts =>
    match tryAcquire cfg s t with
    | (none, s1) =>
      let r := runBucket cfg s1 ts
      (r.1, true :: r.2)
    | (some _, s1) =>
      let r := runBucket cfg s1 ts
      (r.1, false :: r.2)

/-- `Quota::per_minute(1)` for `lim_queries`. -/
def limQueriesCfg : BucketCfg := ⟨1, 60⟩

/-- `Quota::per_hour(5)` for `lim_upstreams`. -/
def limUpstreamsCfg : BucketCfg := ⟨5, 3600⟩

/-- `Quota::per_hour(20)` for `lim_import`. -/
def limImportCfg : BucketCfg := ⟨20, 3600⟩

/-- `Quota::per_hour(4)` for `lim_loop`. -/
def limLoopCfg : BucketCfg := ⟨4, 3600⟩

/-- A remote content item; only its canonical URL matters to the core. -/
structure Status where
  url : String

/-- One configured hashtag: name, ordered source servers, optional
alternate-tag filters. -/
structure Hashtag where
  name : String
  sources : List String
  any : Option (List String)

/-- The configuration consumed by the sync core: local server, access
token, configured hashtags. -/
structure Config where
  server : String
  token : String
  hashtag : List Hashtag

/-- Oracles for the external collaborators: `fetchStatuses server token
name any limit` models `hashtags(...)`; `urlHost` models
`reqwest::Url::parse(..).host_str()` (None covers both an unparseable URL
and a URL without a host); `importUrl server token url` models
`import(...)`. -/
structure Env where
  fetchStatuses : String → String → String → Option (List String) → Nat →
    Except String (List Status)
  urlHost : String → Option String
  importUrl : String → String → String → Except String Unit

/-- The three limiters threaded through a pass (`lim_loop` lives only in
the scheduler loop). -/
structure Limiters where
  queries : KeyedLim
  upstreams : KeyedLim
  imports : BucketState

/-- Result of `import_status` for one candidate: outcome, updated limiters,
updated clock, and the URLs passed to `import()` during the step. -/
structure ItemResult where
  res : Except String Unit
  lims : Limiters
  t : Nat
  calls : List String

/-- `import_status`: parse the host, non-blocking check of the upstream-host
limiter (denied means skip, no wait), blocking wait on the global import
limiter, blocking wait on the query limiter keyed by the local server, then
the import call. -/
def importStatus (env : Env) (status : String) (config : Config)
    (lims : Limiters) (t : Nat) : ItemResult :=
  match env.urlHost status with
  | none => ⟨.error "bad url", lims, t, []⟩
  | some host =>
    match tryAcquireKey limUpstreamsCfg lims.upstreams host t with
    | (some _, _) => ⟨.error ("for now reached quota for " ++ host), lims, t, []⟩
    | (none, ups1) =>
      let r1 := waitUntilAcquire limImportCfg lims.imports t
      let r2 := waitUntilKeyAcquire limQueriesCfg lims.queries config.server r1.2
      match env.importUrl config.server config.token status with
      | .error e => ⟨.error ("import error " ++ e), ⟨r2.1, ups1, r1.1⟩, r2.2, [status]⟩
      | .ok _ => ⟨.ok (), ⟨r2.1, ups1, r1.1⟩, r2.2, [status]⟩

/-- State threaded through the candidate loop of `import_hashtag`:
the per-hashtag `imported_statuses` set, limiters, clock, URLs passed to
`import()`, and the item-level failures surfaced (skipped items). -/
structure LoopState where
  imported : Finset String
  lims : Limiters
  t : Nat
  calls : List String
  failures : List (String × String)

/-- The candidate loop of `import_hashtag`: skip items already in
`imported_statuses`; an item-level error is recorded and skips only that
item; a successful import marks the item. -/
def processCandidates (env : Env) (config : Config) :
    List String → LoopState → LoopState
  | [], st => st
  | u :: rest, st =>
    if u ∈ st.imported then
      processCandidates env config rest st
    else
      match importStatus env u config st.lims st.t with
      | ⟨.error e, lims1, t1, calls1⟩ =>
        processCandidates env config rest
          ⟨st.imported, lims1, t1, st.calls ++ calls1, st.failures ++ [(u, e)]⟩
      | ⟨.ok _, lims1, t1, calls1⟩ =>
        processCandidates env config rest
          ⟨insert u st.imported, lims1, t1, st.calls ++ calls1, st.failures⟩

/-- The source-fetch loop of `import_hashtag`: for each source server in
listed order, block on the query limiter keyed by that server, fetch up to
25 statuses, and accumulate; a fetch error aborts the pass. -/
def fetchSources (env : Env) (hashtag : Hashtag) :
    List String → KeyedLim → Nat → List Status →
    Except String (List Status) × KeyedLim × Nat
  | [], qs, t, acc => (.ok acc, qs, t)
  | server :: rest, qs, t, acc =>
    let r := waitUntilKeyAcquire limQueriesCfg qs server t
    match env.fetchStatuses server "" hashtag.name hashtag.any 25 with
    | .error e => (.error ("fetch remote " ++ server ++ " error " ++ e), r.1, r.2)
    | .ok list => fetchSources env hashtag rest r.1 r.2 (acc ++ list)

/-- `retain(|s| remote_statuses.contains(s))`: prune the imported set to
its intersection with the given set. -/
def retainOnly (imported s : Finset String) : Finset String :=
  imported.filter (fun u => u ∈ s)

/-- Result of one `import_hashtag` pass. -/
structure PassResult where
  res : Except String Unit
  imported : Finset String
  lims : Limiters
  t : Nat
  calls : List String
  failures : List (String × String)

/-- `import_hashtag`: fetch all sources (query-limited), fetch the local
view (query-limited), iterate the set difference remote − local through the
dedup set and `import_status`, then prune `imported_statuses` to the
current remote set.  A fetch error returns early: the imported set is
untouched and the prune step is not performed. -/
def importHashtag (env : Env) (config : Config) (hashtag : Hashtag)
    (imported : Finset String) (lims : Limiters) (t : Nat) : PassResult :=
  match fetchSources env hashtag hashtag.sources lims.queries t [] with
  | (.error e, qs1, t1) =>
    ⟨.error e, imported, ⟨qs1, lims.upstreams, lims.imports⟩, t1, [], []⟩
  | (.ok remoteList, qs1, t1) =>
    let remote : Finset String := (remoteList.map Status.url).toFinset
    let r2 := waitUntilKeyAcquire limQueriesCfg qs1 config.server t1
    match env.fetchStatuses config.server config.token hashtag.name hashtag.any 40 with
    | .error e =>
      ⟨.error ("fetch local " ++ config.server ++ " error " ++ e), imported,
        ⟨r2.1, lims.upstreams, lims.imports⟩, r2.2, [], []⟩
    | .ok localList =>
      let localSet : Finset String := (localList.map Status.url).toFinset
      let cands := (remoteList.map Status.url).dedup.filter (fun u => u ∉ localSet)
      let out := processCandidates env config cands
        ⟨imported, ⟨r2.1, lims.upstreams, lims.imports⟩, r2.2, [], []⟩
      ⟨.ok (), retainOnly out.imported remote, out.lims, out.t, out.calls, out.failures⟩

/-- The URLs the given source servers would contribute to a pass:
concatenation of the successfully fetched status URLs, in source order. -/
def remoteUrlsFrom (env : Env) (hashtag : Hashtag) (srcs : List String) :
    List String :=
  srcs.foldr
    (fun server acc =>
      (match env.fetchStatuses server "" hashtag.name hashtag.any 25 with
       | .ok list => list.map Status.url
       | .error _ => []) ++ acc) []

/-- The URLs a pass would observe remotely: union over all sources of the
successfully fetched status URLs, in source order. -/
def remoteUrlsOf (env : Env) (hashtag : Hashtag) : List String :=
  remoteUrlsFrom env hashtag hashtag.sources

/-- RemoteStatusSet of a pass, as determined by the environment. -/
def remoteOf (env : Env) (hashtag : Hashtag) : Finset String :=
  (remoteUrlsOf env hashtag).toFinset

/-- The URLs the local fetch of a pass would return. -/
def localUrlsOf (env : Env) (config : Config) (hashtag : Hashtag) : List String :=
  match env.fetchStatuses config.server config.token hashtag.name hashtag.any 40 with
  | .ok list => list.map Status.url
  | .error _ => []

/-- LocalStatusSet of a pass, as determined by the environment. -/
def localOf (env : Env) (config : Config) (hashtag : Hashtag) : Finset String :=
  (localUrlsOf env config hashtag).toFinset

/-- The candidate list a completed pass iterates: each distinct remote URL
not in the local set, exactly once. -/
def candidatesOf (env : Env) (config : Config) (hashtag : Hashtag) : List String :=
  (remoteUrlsOf env hashtag).dedup.filter (fun u => u ∉ localOf env config hashtag)

/-- Scheduler state: one `imported_statuses` set per configured hashtag,
the shared limiters, the run-cadence bucket, and the clock. -/
structure SchedState where
  imported : List (Finset String)
  lims : Limiters
  loopLim : BucketState
  t : Nat

/-- Result of iterating all hashtags once. -/
structure PassOut where
  imported : List (Finset String)
  lims : Limiters
  t : Nat
  ress : List (Except String Unit)

/-- The hashtag loop of `run`: each hashtag is processed with its own
imported set; a hashtag-level error is recorded and the loop continues with
the next hashtag. -/
def runPass (env : Env) (config : Config) :
    List Hashtag → List (Finset String) → Limiters → Nat → PassOut
  | [], _, lims, t => ⟨[], lims, t, []⟩
  | h :: rest, imps, lims, t =>
    let r := importHashtag env config h (imps.headD ∅) lims t
    let rr := runPass env config rest imps.tail r.lims r.t
    ⟨r.imported :: rr.imported, rr.lims, rr.t, r.res :: rr.ress⟩

/-- One iteration of the scheduler loop in `run`: process all hashtags,
sleep 5 minutes, block on the run-cadence limiter, then compact the
upstream-host limiter. -/
def runStep (env : Env) (config : Config) (st : SchedState) :
    SchedState × List (Except String Unit) :=
  let po := runPass env config config.hashtag st.imported st.lims st.t
  let r := waitUntilAcquire limLoopCfg st.loopLim (po.t + 300)
  (⟨po.imported,
    ⟨po.lims.queries, compact limUpstreamsCfg po.lims.upstreams r.2, po.lims.imports⟩,
    r.1, r.2⟩, po.ress)

/-- Several scheduler iterations, one environment per pass. -/
def runSched (config : Config) :
    List Env → SchedState → SchedState × List (List (Except String Unit))
  | [], st => (st, [])
  | env :: rest, st =>
    let r := runStep env config st
    let rr := runSched config rest r.1
    (rr.1, r.2 :: rr.2)

/-- Result of running several passes of one hashtag, threading its
imported set: final set, limiters, clock, and all URLs passed to
`import()` across the passes. -/
structure MultiOut where
  imported : Finset String
  lims : Limiters
  t : Nat
  calls : List String

/-- Several consecutive passes of a single hashtag (one environment per
pass), as performed by successive scheduler iterations. -/
def runPasses (config : Config) (hashtag : Hashtag) :
    List Env → Finset String → Limiters → Nat → MultiOut
  | [], imp, lims, t => ⟨imp, lims, t, []⟩
  | env :: rest, imp, lims, t =>
    let r := importHashtag env config hashtag imp lims t
    let rr := runPasses config hashtag rest r.imported r.lims r.t
    ⟨rr.imported, rr.lims, rr.t, r.calls ++ rr.calls⟩

/-! ### Token-bucket lemmas -/

theorem refill_le_cap (cfg : BucketCfg) (s : BucketState) (t : Nat) :
    refill cfg s t ≤ cfg.n * cfg.p :=
  min_le_left _ _

theorem refill_le_linear (cfg : BucketCfg) (s : BucketState) (t : Nat) :
    refill cfg s t ≤ s.avail + cfg.n * (t - s.last) :=
  min_le_right _ _

/-- Budget bound: over attempts within `d` seconds of `s.last`, the granted
permits are paid for by the available quota plus the replenishment. -/
theorem runBucket_budget (cfg : BucketCfg) (ts : List Nat) :
    ∀ (s : BucketState) (d : Nat),
      List.Sorted (· ≤ ·) ts →
      (∀ x ∈ ts, s.last ≤ x ∧ x ≤ s.last + d) →
      cfg.p * ((runBucket cfg s ts).2.count true) ≤ s.avail + cfg.n * d := by
  induction ts with
  | nil => intro s d _ _; simp [runBucket]
  | cons t ts ih =>
    intro s d hsort hbd
    obtain ⟨hst, htd⟩ := hbd t (List.mem_cons_self t ts)
    rw [List.sorted_cons] at hsort
    obtain ⟨hall, hsort'⟩ := hsort
    by_cases hgr : cfg.p ≤ refill cfg s t
    · have hrun : runBucket cfg s (t :: ts) =
          ((runBucket cfg (acquireAt cfg s t) ts).1,
            true :: (runBucket cfg (acquireAt cfg s t) ts).2) := by
        simp [runBucket, tryAcquire, hgr]
      have hbd' : ∀ x ∈ ts, (acquireAt cfg s t).last ≤ x ∧
          x ≤ (acquireAt cfg s t).last + (d - (t - s.last)) := by
        intro x hx
        have h1 := hall x hx
        have h2 := (hbd x (List.mem_cons_of_mem t hx)).2
        simp only [acquireAt]
        omega
      have ihh := ih (acquireAt cfg s t) (d - (t - s.last)) hsort' hbd'
      have hmin := refill_le_linear cfg s t
      have hsplit : cfg.n * (t - s.last) + cfg.n * (d - (t - s.last)) = cfg.n * d := by
        rw [← Nat.mul_add]
        congr 1
        omega
      rw [hrun]
      have hav : (acquireAt cfg s t).avail = refill cfg s t - cfg.p := rfl
      rw [hav] at ihh
      have hmul : cfg.p * ((runBucket cfg (acquireAt cfg s t) ts).2.count true + 1)
          = cfg.p * ((runBucket cfg (acquireAt cfg s t) ts).2.count true) + cfg.p := by
        ring
      simp only [List.count_cons_self]
      omega
    · have hrun : runBucket cfg s (t :: ts) =
          ((runBucket cfg s ts).1, false :: (runBucket cfg s ts).2) := by
        simp [runBucket, tryAcquire, hgr]
      have ihh := ih s d hsort' fun x hx => hbd x (List.mem_cons_of_mem t hx)
      rw [hrun]
      have hcnt : List.count true (false :: (runBucket cfg s ts).2) =
          List.count true (runBucket cfg s ts).2 := by simp
      simp only [hcnt]
      omega

/-- Capacity-capped bound: no matter what state the bucket is in, attempts
confined to `d` seconds after `t0` can be granted at most a full burst plus
the replenishment accrued over `d` seconds. -/
theorem runBucket_cap (cfg : BucketCfg) (ts : List Nat) :
    ∀ (s : BucketState) (t0 d : Nat),
      List.Sorted (· ≤ ·) ts →
      (∀ x ∈ ts, t0 ≤ x ∧ x ≤ t0 + d) →
      cfg.p * ((runBucket cfg s ts).2.count true) ≤ cfg.n * cfg.p + cfg.n * d := by
  induction ts with
  | nil => intro s t0 d _ _; simp [runBucket]
  | cons t ts ih =>
    intro s t0 d hsort hbd
    obtain ⟨hst, htd⟩ := hbd t (List.mem_cons_self t ts)
    rw [List.sorted_cons] at hsort
    obtain ⟨hall, hsort'⟩ := hsort
    by_cases hgr : cfg.p ≤ refill cfg s t
    · have hrun : runBucket cfg s (t :: ts) =
          ((runBucket cfg (acquireAt cfg s t) ts).1,
            true :: (runBucket cfg (acquireAt cfg s t) ts).2) := by
        simp [runBucket, tryAcquire, hgr]
      have hbd' : ∀ x ∈ ts, (acquireAt cfg s t).last ≤ x ∧
          x ≤ (acquireAt cfg s t).last + (t0 + d - t) := by
        intro x hx
        have h1 := hall x hx
        have h2 := (hbd x (List.mem_cons_of_mem t hx)).2
        simp only [acquireAt]
        omega
      have hbudget := runBucket_budget cfg ts (acquireAt cfg s t) (t0 + d - t)
        hsort' hbd'
      have hav : (acquireAt cfg s t).avail = refill cfg s t - cfg.p := rfl
      rw [hav] at hbudget
      have hcap := refill_le_cap cfg s t
      have hmono : cfg.n * (t0 + d - t) ≤ cfg.n * d :=
        Nat.mul_le_mul_left _ (by omega)
      rw [hrun]
      have hmul : cfg.p * ((runBucket cfg (acquireAt cfg s t) ts).2.count true + 1)
          = cfg.p * ((runBucket cfg (acquireAt cfg s t) ts).2.count true) + cfg.p := by
        ring
      simp only [List.count_cons_self]
      omega
    · have hrun : runBucket cfg s (t :: ts) =
          ((runBucket cfg s ts).1, false :: (runBucket cfg s ts).2) := by
        simp [runBucket, tryAcquire, hgr]
      have ihh := ih s t0 d hsort' fun x hx => hbd x (List.mem_cons_of_mem t hx)
      rw [hrun]
      have hcnt : List.count true (false :: (runBucket cfg s ts).2) =
          List.count true (runBucket cfg s ts).2 := by simp
      simp only [hcnt]
      omega

/-- At most `2n - 1` grants inside any sliding window of duration `p`. -/
theorem runBucket_window (cfg : BucketCfg) (s : BucketState) (ts : List Nat)
    (w : Nat) (hn : 1 ≤ cfg.n) (hp : 1 ≤ cfg.p)
    (hsort : List.Sorted (· ≤ ·) ts)
    (hwin : ∀ x ∈ ts, w ≤ x ∧ x < w + cfg.p) :
    (runBucket cfg s ts).2.count true ≤ 2 * cfg.n - 1 := by
  have hcap := runBucket_cap cfg ts s w (cfg.p - 1) hsort ?bnd
  case bnd =>
    intro x hx
    have := hwin x hx
    omega
  have hsub : cfg.n * (cfg.p - 1) + cfg.n = cfg.n * cfg.p := by
    rw [← Nat.mul_succ]
    congr 1
    omega
  by_contra hgt
  push_neg at hgt
  have hcount : 2 * cfg.n ≤ (runBucket cfg s ts).2.count true := by omega
  have h2 : cfg.p * (2 * cfg.n) ≤ cfg.p * ((runBucket cfg s ts).2.count true) :=
    Nat.mul_le_mul_left _ hcount
  have h3 : cfg.p * (2 * cfg.n) = cfg.n * cfg.p + cfg.n * cfg.p := by ring
  omega

/-! ### Claims C8, C4, C7 -/

/-- C8: the prune operation is idempotent: for every ImportedSet state and
every set `S`, applying `retain_only(S)` twice in succession with the same
`S` yields exactly the same ImportedSet as applying it once. -/
theorem c8_retain_idempotent (imported s : Finset String) :
    retainOnly (retainOnly imported s) s = retainOnly imported s := by
  simp [retainOnly, Finset.filter_filter]

/-- C4: once per pass, after the fixed inter-pass sleep and the cadence
wait, the scheduler compacts the upstream-host import limiter, and
compaction keeps a bucket exactly when its quota has not fully recovered to
full capacity (removing every fully recovered bucket). -/
theorem c4_compaction (env : Env) (config : Config) (st : SchedState) :
    (runStep env config st).1.lims.upstreams =
      compact limUpstreamsCfg
        (runPass env config config.hashtag st.imported st.lims st.t).lims.upstreams
        (runStep env config st).1.t ∧
    ∀ (l : KeyedLim) (t : Nat) (kv : String × BucketState),
      kv ∈ compact limUpstreamsCfg l t ↔
        kv ∈ l ∧ refill limUpstreamsCfg kv.2 t ≠ limUpstreamsCfg.n * limUpstreamsCfg.p := by
  refine ⟨rfl, ?_⟩
  intro l t kv
  simp [compact, List.mem_filter]

/-- C7 (amended): for every limiter as configured, and every key (each key
has an independent bucket of the same configuration), at most `2 N − 1`
non-blocking acquisitions are granted within any sliding window of duration
`P`; the claimed bound `N` is refuted by `c7_counterexample`. -/
theorem c7_window_bound (cfg : BucketCfg)
    (hcfg : cfg = limQueriesCfg ∨ cfg = limUpstreamsCfg ∨ cfg = limImportCfg ∨
      cfg = limLoopCfg)
    (s : BucketState) (ts : List Nat) (w : Nat)
    (hsort : List.Sorted (· ≤ ·) ts)
    (hwin : ∀ x ∈ ts, w ≤ x ∧ x < w + cfg.p) :
    (runBucket cfg s ts).2.count true ≤ 2 * cfg.n - 1 := by
  have hn : 1 ≤ cfg.n := by
    rcases hcfg with h | h | h | h <;> subst h <;> decide
  have hp : 1 ≤ cfg.p := by
    rcases hcfg with h | h | h | h <;> subst h <;> decide
  exact runBucket_window cfg s ts w hn hp hsort hwin

/-- Witness for `c7_window_bound` at a concrete run of the cadence
limiter. -/
theorem c7_window_bound_witness :
    (runBucket limLoopCfg (freshBucket limLoopCfg) [0, 900]).2.count true ≤
      2 * limLoopCfg.n - 1 :=
  c7_window_bound limLoopCfg (Or.inr (Or.inr (Or.inr rfl)))
    (freshBucket limLoopCfg) [0, 900] 0 (by decide) (by decide)

/-- C7 counterexample: the run-cadence limiter is configured with 4 permits
per hour, yet a full bucket grants 7 acquisitions at times 0, 0, 0, 0, 900,
1800, 2700 — all inside the sliding window `[0, 3600)` of duration one
hour. -/
theorem c7_counterexample :
    List.Sorted (· ≤ ·) [0, 0, 0, 0, 900, 1800, 2700] ∧
    (∀ x ∈ [0, 0, 0, 0, 900, 1800, 2700], 0 ≤ x ∧ x < 0 + limLoopCfg.p) ∧
    (runBucket limLoopCfg (freshBucket limLoopCfg)
      [0, 0, 0, 0, 900, 1800, 2700]).2.count true = 7 ∧
    ¬((runBucket limLoopCfg (freshBucket limLoopCfg)
      [0, 0, 0, 0, 900, 1800, 2700]).2.count true ≤ limLoopCfg.n) := by
  refine ⟨by decide, by decide, by decide, by decide⟩

/-! ### Engine helper lemmas -/

/-- Sleeping exactly the reported wait duration always makes the permit
available, so the sleep-retry loop of `wait_until` terminates after one
sleep in the deterministic clock model. -/
theorem waitDur_grants (cfg : BucketCfg) (s : BucketState) (t : Nat)
    (hn : 1 ≤ cfg.n) (hlast : s.last ≤ t)
    (hden : refill cfg s t < cfg.p) :
    cfg.p ≤ refill cfg s (t + waitDur cfg s t) := by
  have hcap : cfg.p ≤ cfg.n * cfg.p := by
    calc cfg.p = 1 * cfg.p := (Nat.one_mul _).symm
    _ ≤ cfg.n * cfg.p := Nat.mul_le_mul_right _ hn
  have hmin : refill cfg s t = s.avail + cfg.n * (t - s.last) := by
    have h1 := refill_le_cap cfg s t
    have h2 := refill_le_linear cfg s t
    unfold refill at hden ⊢
    omega
  set a := cfg.p - refill cfg s t with ha
  have hw : a ≤ cfg.n * waitDur cfg s t := by
    have hmod := Nat.div_add_mod (a + cfg.n - 1) cfg.n
    have hlt : (a + cfg.n - 1) % cfg.n < cfg.n := Nat.mod_lt _ (by omega)
    unfold waitDur
    rw [← ha]
    omega
  have hsplit : cfg.n * (t + waitDur cfg s t - s.last)
      = cfg.n * (t - s.last) + cfg.n * waitDur cfg s t := by
    rw [← Nat.mul_add]
    congr 1
    omega
  unfold refill
  rw [hsplit]
  refine le_min hcap ?_
  omega

/-- Every blocking acquisition consumes exactly one permit (ghost
counter). -/
theorem waitUntilAcquire_used (cfg : BucketCfg) (s : BucketState) (t : Nat) :
    (waitUntilAcquire cfg s t).1.used = s.used + 1 := by
  unfold waitUntilAcquire tryAcquire
  by_cases h : cfg.p ≤ refill cfg s t <;> simp [h, acquireAt]

/-- `import_status` with an unparseable URL (or one without a host) fails
item-locally, touching neither the limiters nor the clock, and it makes
no call to the importing collaborator. -/
theorem importStatus_badUrl (env : Env) (u : String) (config : Config)
    (lims : Limiters) (t : Nat) (h : env.urlHost u = none) :
    importStatus env u config lims t = ⟨.error "bad url", lims, t, []⟩ := by
  unfold importStatus
  simp only [h]

/-- `import_status` under an exhausted upstream-host quota fails
item-locally with the quota message, touching neither the limiters nor the
clock, and makes no import call. -/
theorem importStatus_quota (env : Env) (u : String) (config : Config)
    (lims : Limiters) (t : Nat) (host : String) (w : Nat) (l2 : KeyedLim)
    (h1 : env.urlHost u = some host)
    (h2 : tryAcquireKey limUpstreamsCfg lims.upstreams host t = (some w, l2)) :
    importStatus env u config lims t =
      ⟨.error ("for now reached quota for " ++ host), lims, t, []⟩ := by
  unfold importStatus
  simp only [h1, h2]

/-- Shape of `import_status` when the upstream-host check is granted: the
global import limiter is acquired (blocking), then the local-server query
limiter, then the import call happens. -/
theorem importStatus_granted (env : Env) (u : String) (config : Config)
    (lims : Limiters) (t : Nat) (host : String) (ups1 : KeyedLim)
    (h1 : env.urlHost u = some host)
    (h2 : tryAcquireKey limUpstreamsCfg lims.upstreams host t = (none, ups1)) :
    importStatus env u config lims t =
      ⟨match env.importUrl config.server config.token u with
        | .error e => .error ("import error " ++ e)
        | .ok _ => .ok (),
       ⟨(waitUntilKeyAcquire limQueriesCfg lims.queries config.server
           (waitUntilAcquire limImportCfg lims.imports t).2).1, ups1,
        (waitUntilAcquire limImportCfg lims.imports t).1⟩,
       (waitUntilKeyAcquire limQueriesCfg lims.queries config.server
         (waitUntilAcquire limImportCfg lims.imports t).2).2, [u]⟩ := by
  unfold importStatus
  simp only [h1, h2]
  cases env.importUrl config.server config.token u <;> rfl

/-- `import_status` passes at most its own URL to `import()`. -/
theorem importStatus_calls (env : Env) (u : String) (config : Config)
    (lims : Limiters) (t : Nat) :
    (importStatus env u config lims t).calls = [] ∨
    (importStatus env u config lims t).calls = [u] := by
  rcases h1 : env.urlHost u with _ | host
  · rw [importStatus_badUrl env u config lims t h1]
    exact Or.inl rfl
  · rcases h2 : tryAcquireKey limUpstreamsCfg lims.upstreams host t with ⟨o, l2⟩
    cases o with
    | some w =>
      rw [importStatus_quota env u config lims t host w l2 h1 h2]
      exact Or.inl rfl
    | none =>
      rw [importStatus_granted env u config lims t host l2 h1 h2]
      exact Or.inr rfl

/-- A successful `import_status` made exactly one import call, of its own
URL. -/
theorem importStatus_ok_calls (env : Env) (u : String) (config : Config)
    (lims : Limiters) (t : Nat) (v : Unit)
    (h : (importStatus env u config lims t).res = .ok v) :
    (importStatus env u config lims t).calls = [u] := by
  rcases h1 : env.urlHost u with _ | host
  · rw [importStatus_badUrl env u config lims t h1] at h
    cases h
  · rcases h2 : tryAcquireKey limUpstreamsCfg lims.upstreams host t with ⟨o, l2⟩
    cases o with
    | some w =>
      rw [importStatus_quota env u config lims t host w l2 h1 h2] at h
      cases h
    | none =>
      rw [importStatus_granted env u config lims t host l2 h1 h2]

/-- Whenever `import_status` makes an import call, it has consumed exactly
one permit of the global import limiter (after a blocking wait). -/
theorem importStatus_call_global_permit (env : Env) (u : String)
    (config : Config) (lims : Limiters) (t : Nat)
    (h : (importStatus env u config lims t).calls ≠ []) :
    (importStatus env u config lims t).lims.imports.used
      = lims.imports.used + 1 := by
  rcases h1 : env.urlHost u with _ | host
  · rw [importStatus_badUrl env u config lims t h1] at h ⊢
    exact absurd rfl h
  · rcases h2 : tryAcquireKey limUpstreamsCfg lims.upstreams host t with ⟨o, l2⟩
    cases o with
    | some w =>
      rw [importStatus_quota env u config lims t host w l2 h1 h2] at h ⊢
      exact absurd rfl h
    | none =>
      rw [importStatus_granted env u config lims t host l2 h1 h2]
      exact waitUntilAcquire_used limImportCfg lims.imports t

/-- Invariants of the candidate loop: the imported set only grows; items
enter it only through an import call; import calls are made only for listed
candidates that were not already marked; calls and failures accumulate; and
every candidate of the list is either already marked, called, or surfaced
as an item-level failure. -/
theorem processCandidates_spec (env : Env) (config : Config) (l : List String) :
    ∀ st : LoopState,
      st.imported ⊆ (processCandidates env config l st).imported ∧
      (∀ v, v ∈ (processCandidates env config l st).imported →
        v ∈ st.imported ∨ v ∈ (processCandidates env config l st).calls) ∧
      (∀ v, v ∈ (processCandidates env config l st).calls →
        v ∈ st.calls ∨ (v ∈ l ∧ v ∉ st.imported)) ∧
      (∀ v ∈ st.calls, v ∈ (processCandidates env config l st).calls) ∧
      (∀ x ∈ st.failures, x ∈ (processCandidates env config l st).failures) ∧
      (l.Nodup → ∀ v ∈ l, v ∈ st.imported ∨
        v ∈ (processCandidates env config l st).calls ∨
        v ∈ ((processCandidates env config l st).failures.map Prod.fst)) := by
  induction l with
  | nil =>
    intro st
    refine ⟨Finset.Subset.refl _, ?_, ?_, ?_, ?_, ?_⟩
    · intro v hv; exact Or.inl hv
    · intro v hv; exact Or.inl hv
    · intro v hv; exact hv
    · intro x hx; exact hx
    · intro _ v hv; cases hv
  | cons u rest ih =>
    intro st
    by_cases hu : u ∈ st.imported
    · have hstep : processCandidates env config (u :: rest) st
          = processCandidates env config rest st := by
        conv_lhs => unfold processCandidates
        rw [if_pos hu]
      rw [hstep]
      obtain ⟨a1, a2, a3, a4, a5, a6⟩ := ih st
      refine ⟨a1, a2, ?_, a4, a5, ?_⟩
      · intro v hv
        rcases a3 v hv with h | ⟨h1, h2⟩
        · exact Or.inl h
        · exact Or.inr ⟨List.mem_cons_of_mem _ h1, h2⟩
      · intro hnd v hv
        rcases List.mem_cons.1 hv with rfl | hv2
        · exact Or.inl hu
        · exact a6 (List.Nodup.of_cons hnd) v hv2
    · rcases hr : importStatus env u config st.lims st.t with ⟨res, lims1, t1, calls1⟩
      have hcsub : calls1 = [] ∨ calls1 = [u] := by
        have h := importStatus_calls env u config st.lims st.t
        rw [hr] at h
        exact h
      cases res with
      | error e =>
        have hstep : processCandidates env config (u :: rest) st
            = processCandidates env config rest
              ⟨st.imported, lims1, t1, st.calls ++ calls1, st.failures ++ [(u, e)]⟩ := by
          conv_lhs => unfold processCandidates
          rw [if_neg hu, hr]
        rw [hstep]
        obtain ⟨a1, a2, a3, a4, a5, a6⟩ :=
          ih ⟨st.imported, lims1, t1, st.calls ++ calls1, st.failures ++ [(u, e)]⟩
        refine ⟨a1, a2, ?_, ?_, ?_, ?_⟩
        · intro v hv
          rcases a3 v hv with h | ⟨h1, h2⟩
          · rcases List.mem_append.1 h with h3 | h3
            · exact Or.inl h3
            · rcases hcsub with rfl | rfl
              · cases h3
              · have hv' := List.mem_singleton.1 h3
                subst hv'
                exact Or.inr ⟨List.mem_cons_self _ _, hu⟩
          · exact Or.inr ⟨List.mem_cons_of_mem _ h1, h2⟩
        · intro v hv
          exact a4 v (List.mem_append_left _ hv)
        · intro x hx
          exact a5 x (List.mem_append_left _ hx)
        · intro hnd v hv
          rcases List.mem_cons.1 hv with rfl | hv2
          · refine Or.inr (Or.inr ?_)
            exact List.mem_map_of_mem Prod.fst
              (a5 (v, e) (List.mem_append_right _ (List.mem_singleton_self _)))
          · rcases a6 (List.Nodup.of_cons hnd) v hv2 with h | h | h
            · exact Or.inl h
            · exact Or.inr (Or.inl h)
            · exact Or.inr (Or.inr h)
      | ok v0 =>
        have hc1 : calls1 = [u] := by
          have h := importStatus_ok_calls env u config st.lims st.t v0 (by rw [hr])
          rw [hr] at h
          exact h
        subst hc1
        have hstep : processCandidates env config (u :: rest) st
            = processCandidates env config rest
              ⟨insert u st.imported, lims1, t1, st.calls ++ [u], st.failures⟩ := by
          conv_lhs => unfold processCandidates
          rw [if_neg hu, hr]
        rw [hstep]
        obtain ⟨a1, a2, a3, a4, a5, a6⟩ :=
          ih ⟨insert u st.imported, lims1, t1, st.calls ++ [u], st.failures⟩
        have hucall : u ∈ (processCandidates env config rest
            ⟨insert u st.imported, lims1, t1, st.calls ++ [u], st.failures⟩).calls :=
          a4 u (List.mem_append_right _ (List.mem_singleton_self _))
        refine ⟨?_, ?_, ?_, ?_, a5, ?_⟩
        · exact fun x hx => a1 (Finset.mem_insert_of_mem hx)
        · intro v hv
          rcases a2 v hv with h | h
          · rcases Finset.mem_insert.1 h with rfl | h2
            · exact Or.inr hucall
            · exact Or.inl h2
          · exact Or.inr h
        · intro v hv
          rcases a3 v hv with h | ⟨h1, h2⟩
          · rcases List.mem_append.1 h with h3 | h3
            · exact Or.inl h3
            · have hv' := List.mem_singleton.1 h3
              subst hv'
              exact Or.inr ⟨List.mem_cons_self _ _, hu⟩
          · exact Or.inr ⟨List.mem_cons_of_mem _ h1,
              fun hvm => h2 (Finset.mem_insert_of_mem hvm)⟩
        · intro v hv
          exact a4 v (List.mem_append_left _ hv)
        · intro hnd v hv
          rcases List.mem_cons.1 hv with rfl | hv2
          · exact Or.inr (Or.inl hucall)
          · rcases a6 (List.Nodup.of_cons hnd) v hv2 with h | h | h
            · rcases Finset.mem_insert.1 h with rfl | h2
              · exact absurd hv2 ((List.nodup_cons.1 hnd).1)
              · exact Or.inl h2
            · exact Or.inr (Or.inl h)
            · exact Or.inr (Or.inr h)

/-- When the source-fetch loop completes, the accumulated status URLs are
the accumulator followed by exactly the URLs every source contributes. -/
theorem fetchSources_ok (env : Env) (hashtag : Hashtag) (srcs : List String) :
    ∀ (qs : KeyedLim) (t : Nat) (acc rl : List Status) (qs1 : KeyedLim) (t1 : Nat),
      fetchSources env hashtag srcs qs t acc = (.ok rl, qs1, t1) →
      rl.map Status.url = acc.map Status.url ++ remoteUrlsFrom env hashtag srcs := by
  induction srcs with
  | nil =>
    intro qs t acc rl qs1 t1 h
    unfold fetchSources at h
    simp only [Prod.mk.injEq, Except.ok.injEq] at h
    rw [← h.1]
    simp [remoteUrlsFrom]
  | cons server rest ih =>
    intro qs t acc rl qs1 t1 h
    unfold fetchSources at h
    cases hf : env.fetchStatuses server "" hashtag.name hashtag.any 25 with
    | error e =>
      simp only [hf, Prod.mk.injEq] at h
      exact absurd h.1 (by simp)
    | ok list =>
      simp only [hf] at h
      have hrec := ih _ _ _ _ _ _ h
      rw [hrec]
      unfold remoteUrlsFrom
      rw [List.foldr_cons, hf]
      simp [remoteUrlsFrom, List.map_append]

/-- The result a completed pass assembles: the candidate loop run on the
candidate list from some intermediate limiter state and clock, followed by
the prune against the pass's remote set. -/
def mkOkPass (env : Env) (config : Config) (hashtag : Hashtag)
    (imp : Finset String) (lims2 : Limiters) (t2 : Nat) : PassResult :=
  ⟨.ok (),
   retainOnly (processCandidates env config (candidatesOf env config hashtag)
     ⟨imp, lims2, t2, [], []⟩).imported (remoteOf env hashtag),
   (processCandidates env config (candidatesOf env config hashtag)
     ⟨imp, lims2, t2, [], []⟩).lims,
   (processCandidates env config (candidatesOf env config hashtag)
     ⟨imp, lims2, t2, [], []⟩).t,
   (processCandidates env config (candidatesOf env config hashtag)
     ⟨imp, lims2, t2, [], []⟩).calls,
   (processCandidates env config (candidatesOf env config hashtag)
     ⟨imp, lims2, t2, [], []⟩).failures⟩

/-- Every pass either fails at a fetch — leaving the imported set untouched,
making no import call and surfacing no item failure — or completes and is
exactly the candidate loop on `candidatesOf` followed by the prune. -/
theorem importHashtag_cases (env : Env) (config : Config) (hashtag : Hashtag)
    (imp : Finset String) (lims : Limiters) (t : Nat) :
    ((importHashtag env config hashtag imp lims t).imported = imp ∧
     (importHashtag env config hashtag imp lims t).calls = [] ∧
     (importHashtag env config hashtag imp lims t).failures = [] ∧
     ∃ e, (importHashtag env config hashtag imp lims t).res = .error e) ∨
    (∃ lims2 t2, importHashtag env config hashtag imp lims t =
      mkOkPass env config hashtag imp lims2 t2) := by
  unfold importHashtag
  rcases hfs : fetchSources env hashtag hashtag.sources lims.queries t []
    with ⟨res1, qs1, t1⟩
  cases res1 with
  | error e =>
    left
    exact ⟨rfl, rfl, rfl, e, rfl⟩
  | ok rl =>
    cases hloc : env.fetchStatuses config.server config.token hashtag.name
        hashtag.any 40 with
    | error e =>
      left
      exact ⟨rfl, rfl, rfl, _, rfl⟩
    | ok ll =>
      right
      refine ⟨⟨(waitUntilKeyAcquire limQueriesCfg qs1 config.server t1).1,
        lims.upstreams, lims.imports⟩,
        (waitUntilKeyAcquire limQueriesCfg qs1 config.server t1).2, ?_⟩
      have hmap : rl.map Status.url = remoteUrlsOf env hashtag := by
        have h := fetchSources_ok env hashtag hashtag.sources lims.queries t [] rl
          qs1 t1 hfs
        simpa [remoteUrlsOf] using h
      have hloc2 : localUrlsOf env config hashtag = ll.map Status.url := by
        unfold localUrlsOf
        rw [hloc]
      unfold mkOkPass candidatesOf localOf remoteOf
      rw [hloc2, ← hmap]

/-- The candidate list contains no duplicates. -/
theorem candidatesOf_nodup (env : Env) (config : Config) (hashtag : Hashtag) :
    (candidatesOf env config hashtag).Nodup :=
  List.Nodup.filter _ (List.nodup_dedup _)

/-- Candidates are never locally visible URLs. -/
theorem candidatesOf_not_local (env : Env) (config : Config) (hashtag : Hashtag)
    (u : String) (h : u ∈ candidatesOf env config hashtag) :
    u ∉ localOf env config hashtag := by
  have h2 := (List.mem_filter.1 h).2
  simpa using h2

/-- Candidates are remotely visible URLs. -/
theorem candidatesOf_sub_remote (env : Env) (config : Config) (hashtag : Hashtag)
    (u : String) (h : u ∈ candidatesOf env config hashtag) :
    u ∈ remoteOf env hashtag := by
  have h1 := List.mem_dedup.1 (List.mem_filter.1 h).1
  exact List.mem_toFinset.2 h1

/-! ### Concrete fixtures (used by witnesses and counterexamples) -/

/-- The spec §8 example scenario: sources A and B return `{u1,u2}` and
`{u2,u3}`, the local server already shows `u1`, and importing `u3` fails
with a transport error. -/
def testHashtag : Hashtag := ⟨"kr2024", ["a.example", "b.example"], none⟩

def testConfig : Config := ⟨"local.example", "tok", [testHashtag]⟩

def testEnv : Env :=
  ⟨fun server _token _name _any _limit =>
      if server = "a.example" then .ok [⟨"u1"⟩, ⟨"u2"⟩]
      else if server = "b.example" then .ok [⟨"u2"⟩, ⟨"u3"⟩]
      else if server = "local.example" then .ok [⟨"u1"⟩]
      else .error "unknown server",
    fun u =>
      if u = "u1" then some "h1.example"
      else if u = "u2" then some "h2.example"
      else if u = "u3" then some "h3.example"
      else none,
    fun _server _token u =>
      if u = "u3" then .error "transport" else .ok ()⟩

/-- An environment in which every fetch fails. -/
def testEnvFail : Env :=
  ⟨fun _server _token _name _any _limit => .error "net down",
    fun _ => none,
    fun _ _ _ => .ok ()⟩

/-- Freshly started limiters, as `run` creates them. -/
def limsInit : Limiters := ⟨[], [], freshBucket limImportCfg⟩

/-! ### Claims C1, C9, C3, C2 -/

/-- C1: for every completed hashtag pass, the candidate list iterated
equals, as a set, exactly RemoteStatusSet − LocalStatusSet; every URL
passed to `import()` is one of those candidates; and a URL present in the
local set is never passed to `import()`, whether or not it was ever marked
in the dedup tracker. -/
theorem c1_diff_correctness (env : Env) (config : Config) (hashtag : Hashtag)
    (imp : Finset String) (lims : Limiters) (t : Nat)
    (h : (importHashtag env config hashtag imp lims t).res = .ok ()) :
    (candidatesOf env config hashtag).toFinset =
      remoteOf env hashtag \ localOf env config hashtag ∧
    (∀ u ∈ (importHashtag env config hashtag imp lims t).calls,
      u ∈ candidatesOf env config hashtag) ∧
    (∀ u ∈ localOf env config hashtag,
      u ∉ (importHashtag env config hashtag imp lims t).calls) := by
  have hset : (candidatesOf env config hashtag).toFinset =
      remoteOf env hashtag \ localOf env config hashtag := by
    ext u
    simp [candidatesOf, remoteOf, List.mem_filter, List.mem_dedup,
      Finset.mem_sdiff, and_comm]
  have hcand : ∀ u ∈ (importHashtag env config hashtag imp lims t).calls,
      u ∈ candidatesOf env config hashtag := by
    intro u hu
    rcases importHashtag_cases env config hashtag imp lims t with
      ⟨_, hc, _, e, he⟩ | ⟨l2, t2, heq⟩
    · rw [he] at h
      exact Except.noConfusion h
    · rw [heq] at hu
      obtain ⟨_, _, a3, _, _, _⟩ := processCandidates_spec env config
        (candidatesOf env config hashtag) ⟨imp, l2, t2, [], []⟩
      rcases a3 u hu with hz | ⟨h1, _⟩
      · cases hz
      · exact h1
  refine ⟨hset, hcand, ?_⟩
  intro u hl hc
  exact candidatesOf_not_local env config hashtag u (hcand u hc) hl

/-- Witness for `c1_diff_correctness` on the spec example scenario. -/
theorem c1_diff_correctness_witness :
    (candidatesOf testEnv testConfig testHashtag).toFinset =
      remoteOf testEnv testHashtag \ localOf testEnv testConfig testHashtag ∧
    (∀ u ∈ (importHashtag testEnv testConfig testHashtag ∅ limsInit 0).calls,
      u ∈ candidatesOf testEnv testConfig testHashtag) ∧
    (∀ u ∈ localOf testEnv testConfig testHashtag,
      u ∉ (importHashtag testEnv testConfig testHashtag ∅ limsInit 0).calls) :=
  c1_diff_correctness testEnv testConfig testHashtag ∅ limsInit 0 rfl

/-- C9: a hashtag-level error (any source fetch or the local fetch failing)
returns with that hashtag's imported set exactly as it was before the pass:
nothing was inserted and the prune step did not run; no import call was
made either. -/
theorem c9_error_atomicity (env : Env) (config : Config) (hashtag : Hashtag)
    (imp : Finset String) (lims : Limiters) (t : Nat) (e : String)
    (h : (importHashtag env config hashtag imp lims t).res = .error e) :
    (importHashtag env config hashtag imp lims t).imported = imp ∧
    (importHashtag env config hashtag imp lims t).calls = [] := by
  rcases importHashtag_cases env config hashtag imp lims t with
    ⟨him, hc, _, _, _⟩ | ⟨l2, t2, heq⟩
  · exact ⟨him, hc⟩
  · rw [heq] at h
    exact Except.noConfusion h

/-- Witness for `c9_error_atomicity` on a pass whose remote fetch fails. -/
theorem c9_error_atomicity_witness :
    (importHashtag testEnvFail testConfig testHashtag {"u9"} limsInit 0).imported
      = {"u9"} ∧
    (importHashtag testEnvFail testConfig testHashtag {"u9"} limsInit 0).calls
      = [] :=
  c9_error_atomicity testEnvFail testConfig testHashtag {"u9"} limsInit 0
    "fetch remote a.example error net down" rfl

/-- C3 (amended): at the end of every pass that completes (no fetch
failure), the prune restores ImportedSet ⊆ RemoteStatusSet, hence
`|ImportedSet| ≤ |RemoteStatusSet|`; on a pass aborted by a fetch failure
the prune does not run and the set is left unchanged, so the bound can fail
there (`c3_counterexample`). -/
theorem c3_bounded_dedup (env : Env) (config : Config) (hashtag : Hashtag)
    (imp : Finset String) (lims : Limiters) (t : Nat)
    (h : (importHashtag env config hashtag imp lims t).res = .ok ()) :
    (importHashtag env config hashtag imp lims t).imported ⊆
      remoteOf env hashtag ∧
    (importHashtag env config hashtag imp lims t).imported.card ≤
      (remoteOf env hashtag).card := by
  rcases importHashtag_cases env config hashtag imp lims t with
    ⟨_, _, _, e, he⟩ | ⟨l2, t2, heq⟩
  · rw [he] at h
    exact Except.noConfusion h
  · rw [heq]
    have hsub : (mkOkPass env config hashtag imp l2 t2).imported ⊆
        remoteOf env hashtag := by
      intro x hx
      exact (Finset.mem_filter.1 hx).2
    exact ⟨hsub, Finset.card_le_card hsub⟩

/-- Witness for `c3_bounded_dedup` on the spec example scenario. -/
theorem c3_bounded_dedup_witness :
    (importHashtag testEnv testConfig testHashtag ∅ limsInit 0).imported ⊆
      remoteOf testEnv testHashtag ∧
    (importHashtag testEnv testConfig testHashtag ∅ limsInit 0).imported.card ≤
      (remoteOf testEnv testHashtag).card :=
  c3_bounded_dedup testEnv testConfig testHashtag ∅ limsInit 0 rfl

/-- C3 counterexample: a pass whose first source fetch fails returns with
the imported set untouched and unpruned, so after that pass
`|ImportedSet| = 1 > 0 = |RemoteStatusSet|` — the claimed bound does not
hold at the end of a pass in which a fetch failed. -/
theorem c3_counterexample :
    (importHashtag testEnvFail testConfig testHashtag {"u9"} limsInit 0).res
      = Except.error "fetch remote a.example error net down" ∧
    (importHashtag testEnvFail testConfig testHashtag {"u9"} limsInit 0).imported
      = {"u9"} ∧
    remoteOf testEnvFail testHashtag = ∅ ∧
    ¬((importHashtag testEnvFail testConfig testHashtag {"u9"} limsInit 0).imported.card
      ≤ (remoteOf testEnvFail testHashtag).card) := by
  refine ⟨rfl, rfl, rfl, ?_⟩
  decide

/-- One pass keeps a marked, still-remotely-visible URL marked and does not
pass it to `import()`. -/
theorem importHashtag_marked_frame (env : Env) (config : Config)
    (hashtag : Hashtag) (imp : Finset String) (lims : Limiters) (t : Nat)
    (u : String) (hu : u ∈ imp) (hr : u ∈ remoteOf env hashtag) :
    u ∈ (importHashtag env config hashtag imp lims t).imported ∧
    u ∉ (importHashtag env config hashtag imp lims t).calls := by
  rcases importHashtag_cases env config hashtag imp lims t with
    ⟨him, hc, _, _, _⟩ | ⟨l2, t2, heq⟩
  · rw [him, hc]
    exact ⟨hu, by simp⟩
  · rw [heq]
    obtain ⟨a1, _, a3, _, _, _⟩ := processCandidates_spec env config
      (candidatesOf env config hashtag) ⟨imp, l2, t2, [], []⟩
    constructor
    · exact Finset.mem_filter.2 ⟨a1 hu, hr⟩
    · intro hc
      rcases a3 u hc with hz | ⟨_, h2⟩
      · cases hz
      · exact h2 hu

/-- The cons equation of `runPasses`. -/
theorem runPasses_cons (config : Config) (hashtag : Hashtag) (env : Env)
    (rest : List Env) (imp : Finset String) (lims : Limiters) (t : Nat) :
    runPasses config hashtag (env :: rest) imp lims t =
      ⟨(runPasses config hashtag rest
          (importHashtag env config hashtag imp lims t).imported
          (importHashtag env config hashtag imp lims t).lims
          (importHashtag env config hashtag imp lims t).t).imported,
        (runPasses config hashtag rest
          (importHashtag env config hashtag imp lims t).imported
          (importHashtag env config hashtag imp lims t).lims
          (importHashtag env config hashtag imp lims t).t).lims,
        (runPasses config hashtag rest
          (importHashtag env config hashtag imp lims t).imported
          (importHashtag env config hashtag imp lims t).lims
          (importHashtag env config hashtag imp lims t).t).t,
        (importHashtag env config hashtag imp lims t).calls ++
          (runPasses config hashtag rest
            (importHashtag env config hashtag imp lims t).imported
            (importHashtag env config hashtag imp lims t).lims
            (importHashtag env config hashtag imp lims t).t).calls⟩ := rfl

/-- C2: once a URL is marked in the per-hashtag ImportedSet, then across
any number of subsequent passes in which it stays remotely visible it is
never passed to `import()` again and remains marked (the local diff or the
dedup check skips it, and each prune keeps it). -/
theorem c2_no_duplicate_import (config : Config) (hashtag : Hashtag)
    (envs : List Env) :
    ∀ (imp : Finset String) (lims : Limiters) (t : Nat) (u : String),
      u ∈ imp → (∀ env ∈ envs, u ∈ remoteOf env hashtag) →
      u ∉ (runPasses config hashtag envs imp lims t).calls ∧
      u ∈ (runPasses config hashtag envs imp lims t).imported := by
  induction envs with
  | nil =>
    intro imp lims t u hu _
    exact ⟨by simp [runPasses], hu⟩
  | cons env rest ih =>
    intro imp lims t u hu hall
    have hstep := importHashtag_marked_frame env config hashtag imp lims t u hu
      (hall env (List.mem_cons_self _ _))
    have hrec := ih (importHashtag env config hashtag imp lims t).imported
      (importHashtag env config hashtag imp lims t).lims
      (importHashtag env config hashtag imp lims t).t u hstep.1
      (fun e he => hall e (List.mem_cons_of_mem _ he))
    rw [runPasses_cons]
    refine ⟨?_, hrec.2⟩
    intro hc
    rcases List.mem_append.1 hc with h1 | h1
    · exact hstep.2 h1
    · exact hrec.1 h1

/-- Witness for `c2_no_duplicate_import`: two passes over the example
scenario with `u2` already marked. -/
theorem c2_no_duplicate_import_witness :
    "u2" ∉ (runPasses testConfig testHashtag [testEnv, testEnv] {"u2"}
      limsInit 0).calls ∧
    "u2" ∈ (runPasses testConfig testHashtag [testEnv, testEnv] {"u2"}
      limsInit 0).imported :=
  c2_no_duplicate_import testConfig testHashtag [testEnv, testEnv] {"u2"}
    limsInit 0 "u2" (by decide) (by decide)

/-! ### Claims C5, C6, C10 -/

/-- C5: a candidate whose upstream-host limiter check is denied is skipped
for the pass with an item-level quota failure and no waiting (limiters and
clock untouched, no call made); a URL enters the imported set only via a
call to `import()`, so such an item is not marked and stays eligible; and
every call to `import()` is preceded by a blocking acquisition of exactly
one permit of the global import limiter. -/
theorem c5_upstream_quota_policy :
    (∀ (env : Env) (u : String) (config : Config) (lims : Limiters) (t : Nat)
        (host : String) (w : Nat) (l2 : KeyedLim),
      env.urlHost u = some host →
      tryAcquireKey limUpstreamsCfg lims.upstreams host t = (some w, l2) →
      importStatus env u config lims t =
        ⟨.error ("for now reached quota for " ++ host), lims, t, []⟩) ∧
    (∀ (env : Env) (config : Config) (hashtag : Hashtag) (imp : Finset String)
        (lims : Limiters) (t : Nat) (u : String),
      u ∈ (importHashtag env config hashtag imp lims t).imported →
      u ∈ imp ∨ u ∈ (importHashtag env config hashtag imp lims t).calls) ∧
    (∀ (env : Env) (u : String) (config : Config) (lims : Limiters) (t : Nat),
      (importStatus env u config lims t).calls ≠ [] →
      (importStatus env u config lims t).lims.imports.used
        = lims.imports.used + 1) := by
  refine ⟨?_, ?_, ?_⟩
  · intro env u config lims t host w l2 h1 h2
    exact importStatus_quota env u config lims t host w l2 h1 h2
  · intro env config hashtag imp lims t u hu
    rcases importHashtag_cases env config hashtag imp lims t with
      ⟨him, _, _, _, _⟩ | ⟨l2, t2, heq⟩
    · rw [him] at hu
      exact Or.inl hu
    · rw [heq] at hu ⊢
      have hu2 := (Finset.mem_filter.1 hu).1
      obtain ⟨_, a2, _, _, _, _⟩ := processCandidates_spec env config
        (candidatesOf env config hashtag) ⟨imp, l2, t2, [], []⟩
      exact a2 u hu2
  · intro env u config lims t h
    exact importStatus_call_global_permit env u config lims t h

/-- Witness for `c5_upstream_quota_policy`: host `h2.example` has an
exhausted bucket, so the candidate `u2` is skipped without waiting. -/
theorem c5_upstream_quota_policy_witness :
    importStatus testEnv "u2" testConfig
      ⟨[], [("h2.example", ⟨0, 0, 5⟩)], freshBucket limImportCfg⟩ 0 =
      ⟨.error ("for now reached quota for " ++ "h2.example"),
        ⟨[], [("h2.example", ⟨0, 0, 5⟩)], freshBucket limImportCfg⟩, 0, []⟩ :=
  c5_upstream_quota_policy.1 testEnv "u2" testConfig
    ⟨[], [("h2.example", ⟨0, 0, 5⟩)], freshBucket limImportCfg⟩ 0
    "h2.example" 720 [("h2.example", ⟨0, 0, 5⟩)] rfl rfl

/-- C6: item-level errors are contained — in a completed pass every
candidate is either already marked, passed to `import()`, or surfaced as an
item-level failure (none aborts the rest); and hashtag-level errors are
contained — every pass produces a result for every configured hashtag, and
the scheduler performs every pass it is given. -/
theorem c6_error_containment :
    (∀ (env : Env) (config : Config) (hashtag : Hashtag) (imp : Finset String)
        (lims : Limiters) (t : Nat),
      (importHashtag env config hashtag imp lims t).res = .ok () →
      ∀ u ∈ candidatesOf env config hashtag,
        u ∈ imp ∨ u ∈ (importHashtag env config hashtag imp lims t).calls ∨
        u ∈ ((importHashtag env config hashtag imp lims t).failures.map
          Prod.fst)) ∧
    (∀ (env : Env) (config : Config) (hs : List Hashtag)
        (imps : List (Finset String)) (lims : Limiters) (t : Nat),
      (runPass env config hs imps lims t).ress.length = hs.length) ∧
    (∀ (config : Config) (envs : List Env) (st : SchedState),
      (runSched config envs st).2.length = envs.length) := by
  refine ⟨?_, ?_, ?_⟩
  · intro env config hashtag imp lims t h u hu
    rcases importHashtag_cases env config hashtag imp lims t with
      ⟨_, _, _, e, he⟩ | ⟨l2, t2, heq⟩
    · rw [he] at h
      exact Except.noConfusion h
    · rw [heq]
      obtain ⟨_, _, _, _, _, a6⟩ := processCandidates_spec env config
        (candidatesOf env config hashtag) ⟨imp, l2, t2, [], []⟩
      exact a6 (candidatesOf_nodup env config hashtag) u hu
  · intro env config hs
    induction hs with
    | nil => intro imps lims t; rfl
    | cons h rest ih =>
      intro imps lims t
      have := ih imps.tail
        (importHashtag env config h (imps.headD ∅) lims t).lims
        (importHashtag env config h (imps.headD ∅) lims t).t
      simpa [runPass] using this
  · intro config envs
    induction envs with
    | nil => intro st; rfl
    | cons env rest ih =>
      intro st
      have := ih (runStep env config st).1
      simpa [runSched] using this

/-- Witness for `c6_error_containment` on the example scenario and on
concrete scheduler runs. -/
theorem c6_error_containment_witness :
    ("u3" ∈ (∅ : Finset String) ∨
      "u3" ∈ (importHashtag testEnv testConfig testHashtag ∅ limsInit 0).calls ∨
      "u3" ∈ ((importHashtag testEnv testConfig testHashtag ∅
        limsInit 0).failures.map Prod.fst)) ∧
    (runPass testEnvFail testConfig testConfig.hashtag [∅] limsInit
      0).ress.length = testConfig.hashtag.length ∧
    (runSched testConfig [testEnvFail, testEnv]
      ⟨[∅], limsInit, freshBucket limLoopCfg, 0⟩).2.length = 2 :=
  ⟨c6_error_containment.1 testEnv testConfig testHashtag ∅ limsInit 0 rfl
      "u3" (by decide),
    c6_error_containment.2.1 testEnvFail testConfig testConfig.hashtag [∅]
      limsInit 0,
    c6_error_containment.2.2 testConfig [testEnvFail, testEnv]
      ⟨[∅], limsInit, freshBucket limLoopCfg, 0⟩⟩

/-- C10: a skipped candidate consumes nothing — an unparseable URL leaves
all limiters and the clock untouched with no import call; an upstream-quota
denial leaves the global import limiter, the query limiter and the clock
untouched with no import call; and a candidate already in the dedup set is
skipped as a complete no-op of the loop state. -/
theorem c10_skip_frame :
    (∀ (env : Env) (u : String) (config : Config) (lims : Limiters) (t : Nat),
      env.urlHost u = none →
        (importStatus env u config lims t).lims = lims ∧
        (importStatus env u config lims t).t = t ∧
        (importStatus env u config lims t).calls = []) ∧
    (∀ (env : Env) (u : String) (config : Config) (lims : Limiters) (t : Nat)
        (host : String) (w : Nat) (l2 : KeyedLim),
      env.urlHost u = some host →
      tryAcquireKey limUpstreamsCfg lims.upstreams host t = (some w, l2) →
        (importStatus env u config lims t).lims.imports = lims.imports ∧
        (importStatus env u config lims t).lims.imports.used
          = lims.imports.used ∧
        (importStatus env u config lims t).lims.queries = lims.queries ∧
        (importStatus env u config lims t).t = t ∧
        (importStatus env u config lims t).calls = []) ∧
    (∀ (env : Env) (config : Config) (u : String) (rest : List String)
        (st : LoopState),
      u ∈ st.imported →
      processCandidates env config (u :: rest) st =
        processCandidates env config rest st) := by
  refine ⟨?_, ?_, ?_⟩
  · intro env u config lims t h
    rw [importStatus_badUrl env u config lims t h]
    exact ⟨rfl, rfl, rfl⟩
  · intro env u config lims t host w l2 h1 h2
    rw [importStatus_quota env u config lims t host w l2 h1 h2]
    exact ⟨rfl, rfl, rfl, rfl, rfl⟩
  · intro env config u rest st hu
    conv_lhs => unfold processCandidates
    rw [if_pos hu]

/-- Witness for `c10_skip_frame`: an unparseable URL touches nothing. -/
theorem c10_skip_frame_witness :
    (importStatus testEnv "mailto:x" testConfig limsInit 5).lims = limsInit ∧
    (importStatus testEnv "mailto:x" testConfig limsInit 5).t = 5 ∧
    (importStatus testEnv "mailto:x" testConfig limsInit 5).calls = [] :=
  c10_skip_frame.1 testEnv "mailto:x" testConfig limsInit 5 rfl
